import Mathlib

/-!
Verification of the `waco` library (contaminant-injection analysis for water
distribution networks) against its natural-language specification.

The two source modules are embedded shallowly:

* `waco/analyzer.py` — `detection_time` and `contaminated_volume`, operating on
  pandas DataFrames.  Tables are embedded as lists of rows; a trace table keeps
  its injection-node column names alongside its rows.  Times are integers
  (seconds), concentrations and demands are rationals.
* `waco/sim.py` — `contamination`, `water_demand` and `_clean_tmp`.  The
  external EPANET simulator is a parameter (a function from the configured
  trace node to its stacked quality series), and the filesystem touched by
  `_clean_tmp` is an explicit list of file names.

Python exceptions (IndexError from the default-sentinel computation, KeyError
from the multi-index lookup) are embedded with `Option`: `none` models a raise.
-/

namespace Waco

/-- One row of the trace DataFrame produced by `waco.sim.contamination`:
a simulation `time` (seconds), the observing `node`, and one contaminant
percentage per injection-node column (in column order). -/
structure TraceRow where
  time : Int
  node : Nat
  vals : List Rat
deriving DecidableEq

/-- The trace DataFrame: the injection-node column names (the columns after
`time` and `node`, in order) and the rows (in DataFrame row order). -/
structure TraceTable where
  injNodes : List Nat
  rows : List TraceRow
deriving DecidableEq

/-- One row of the demand DataFrame produced by `waco.sim.water_demand`. -/
structure DemandRow where
  time : Int
  node : Nat
  demand : Rat
deriving DecidableEq

/-- One row of the detection-time DataFrame returned by `detection_time`:
columns `node`, `inj_node`, `time`.  The time is a rational because a
non-detected pair carries the float sentinel `non_detection_value`. -/
structure DetRow where
  node : Nat
  injNode : Nat
  time : Rat
deriving DecidableEq

/-- One row of the DataFrame returned by `contaminated_volume`. -/
structure VolRow where
  node : Nat
  injNode : Nat
  volume : Rat
deriving DecidableEq

/-- Ascending sort, embedding Python's `sorted`. -/
def sortAsc (xs : List Int) : List Int :=
  List.insertionSort (· ≤ ·) xs

/-- `analyzer.py` line 34: `times = sorted(trace["time"].unique())`. -/
def sortedDistinctTimes (rows : List TraceRow) : List Int :=
  sortAsc (rows.map (·.time)).dedup

/-- `analyzer.py` line 35: the default sentinel
`times[-1] + (times[-1] - times[-2])`.  Python raises IndexError when fewer
than two distinct times exist; that is the `none` case. -/
def defaultSentinel (rows : List TraceRow) : Option Rat :=
  match (sortedDistinctTimes rows).reverse with
  | tLast :: tPrev :: _ => some ((tLast + (tLast - tPrev) : Int) : Rat)
  | _ => none

/-- The distinct `node` values of the trace, in the sorted order that
`trace.groupby("node")` enumerates its groups. -/
def nodesOf (rows : List TraceRow) : List Nat :=
  (List.insertionSort (· ≤ ·) (rows.map (·.node)).dedup)

/-- `analyzer.py` lines 37-39, `first_T_greater_than` applied to the group of
node `n` and the injection column at position `j`: the first row of the trace
(in row order) belonging to node `n` whose value in column `j` is strictly
greater than `sensibility`; `none` when the filtered series is empty.
`trace.loc[filtered_series.index[0], "time"]` is the `time` of that row. -/
def first_T_greater_than (rows : List TraceRow) (sensibility : Rat) (n : Nat)
    (j : Nat) : Option TraceRow :=
  rows.find? (fun r => r.node == n && decide (sensibility < r.vals.getD j 0))

/-- One stacked output row of the aggregation at `analyzer.py` lines 41-45,
for node group `n` and the injection column at position `j`: the time of the
first exceedance when one exists, the `fillna` sentinel otherwise. -/
def detRowOf (t : TraceTable) (sensibility : Rat)
    (non_detection_value : Rat) (n j : Nat) : DetRow :=
  { node := n
    injNode := t.injNodes.getD j 0
    time := match first_T_greater_than t.rows sensibility n j with
      | some r => (r.time : Rat)
      | none => non_detection_value }

/-- `analyzer.py` lines 41-46 after the sentinel has been fixed: the group-by
aggregation, `fillna`, `stack` and `reset_index`.  `stack` enumerates one row
per (node group, injection column) pair: node groups in the sorted order of
`groupby`, columns in trace column order. -/
def detection_time_core (t : TraceTable) (sensibility : Rat)
    (non_detection_value : Rat) : List DetRow :=
  (nodesOf t.rows).flatMap (fun n =>
    (List.range t.injNodes.length).map
      (detRowOf t sensibility non_detection_value n))

/-- `analyzer.py` line 46: `det_time.columns = ["node", "inj_node", "time"]`. -/
def detection_time_columns : List String :=
  ["node", "inj_node", "time"]

/-- `analyzer.py` lines 5-47, `detection_time`.  `non_detection_value = none`
embeds the Python default `None`, in which case the sentinel is computed from
the trace times (raising — `none` — when fewer than two distinct times
exist). -/
def detection_time (t : TraceTable) (sensibility : Rat)
    (non_detection_value : Option Rat) : Option (List DetRow) :=
  match non_detection_value with
  | some v => some (detection_time_core t sensibility v)
  | none =>
    match defaultSentinel t.rows with
    | some v => some (detection_time_core t sensibility v)
    | none => none

/-- Truncation toward zero, embedding numpy's float-to-int cast in
`det_time["time"].astype(int)` (`analyzer.py` line 88). -/
def ratTrunc (q : Rat) : Int :=
  if q < 0 then -((-q).floor) else q.floor

/-- `trace["time"].max()` (`analyzer.py` line 87); `none` for an empty trace
(pandas yields NaN there, and every NaN comparison at line 98 is false, so no
clamping happens — which the `none` branch of `clampTime` reproduces). -/
def listMax : List Int → Option Int
  | [] => none
  | x :: xs =>
    some (match listMax xs with
      | none => x
      | some m => max x m)

/-- `analyzer.py` lines 93-94: `trace[scenario_names].mul(0.01 *
demand["demand"], axis=0)` with `time` re-attached.  Both DataFrames carry the
default RangeIndex (they come from `reset_index` in `sim.py`), so the
index-aligned multiplication pairs the tables row by row, embedded by `zip`.
Each element is the row's `time` together with, per injection column, the
percentage times `0.01` times that positional demand. -/
def scenarioVols (t : TraceTable) (demand : List DemandRow) :
    List (Int × List Rat) :=
  (t.rows.zip demand).map (fun p =>
    (p.1.time, p.1.vals.map (fun v => v * (0.01 : Rat) * p.2.demand)))

/-- `analyzer.py` line 95, one cell of `contam_vol.groupby(["time"]).sum()`:
the volume at time `tme` in injection column `j`, summed over all rows (all
observing nodes) carrying that time. -/
def perTimeVol (t : TraceTable) (demand : List DemandRow) (tme : Int)
    (j : Nat) : Rat :=
  (((scenarioVols t demand).filter (fun p => p.1 == tme)).map
    (fun p => p.2.getD j 0)).sum

/-- `analyzer.py` line 99, one key of the multi-index selection
`contam_vol[pd.MultiIndex.from_tuples(idxs.tolist())]`: the stacked groupby
result is indexed by (time, injection column name); a key whose time is not
among the trace times, or whose injection node is not a trace column, raises
KeyError (`none`). -/
def volLookup (t : TraceTable) (demand : List DemandRow) (tme : Int)
    (inj : Nat) : Option Rat :=
  if (t.rows.any (fun r => r.time == tme)) ∧ inj ∈ t.injNodes then
    some (perTimeVol t demand tme (t.injNodes.indexOf inj))
  else none

/-- `analyzer.py` line 98: detection times strictly greater than
`max_sim_time` are replaced by `max_sim_time`. -/
def clampTime (maxT : Option Int) (x : Int) : Int :=
  match maxT with
  | some m => if m < x then m else x
  | none => x

/-- Option-valued traversal: apply `f` to every element, returning `none` as
soon as one application fails.  Embeds the all-or-nothing multi-index
selection of `analyzer.py` line 99: one missing key raises KeyError for the
whole lookup. -/
def optTraverse (f : α → Option β) : List α → Option (List β)
  | [] => some []
  | a :: l =>
    match f a, optTraverse f l with
    | some b, some bs => some (b :: bs)
    | _, _ => none

/-- The three DataFrames `contaminated_volume` can read or write.  The
function mutates `det_time` in place, so the embedding passes the state
explicitly and returns it next to the result. -/
structure AnalyzerState where
  trace : TraceTable
  demand : List DemandRow
  det_time : List DetRow
deriving DecidableEq

/-- `analyzer.py` lines 50-103, `contaminated_volume`.  Line 88 casts
`det_time["time"]` to int in place: the returned state carries the cast
column, and the lookup at lines 97-99 reads the cast times.  The result is
`none` when the multi-index selection raises KeyError. -/
def contaminated_volume (s : AnalyzerState) :
    AnalyzerState × Option (List VolRow) :=
  let maxT := listMax (s.trace.rows.map (·.time))
  let out := optTraverse (fun r =>
    (volLookup s.trace s.demand (clampTime maxT (ratTrunc r.time))
        r.injNode).map
      (fun v => ({ node := r.node, injNode := r.injNode, volume := v } :
        VolRow)))
    s.det_time
  ({ s with
      det_time := s.det_time.map (fun r =>
        { r with time := ((ratTrunc r.time : Int) : Rat) }) },
    out)

/-- The stacked per-(time, node) quality (or demand) series one
`sim.run_sim()` call produces: its (time, node) index keys and its values. -/
structure SimResult where
  keys : List (Int × Nat)
  vals : List Rat
deriving DecidableEq

/-- `sim.py` lines 53-58: the loop over the injection nodes.  Each iteration
sets `wn.options.quality.trace_node` and invokes the simulator exactly once;
the first component logs the trace node of every `run_sim` invocation in
order, the second collects the stacked quality series. -/
def contaminationLoop (run : Nat → SimResult) :
    List Nat → List Nat × List SimResult
  | [] => ([], [])
  | n :: ns =>
    let res := run n
    let rest := contaminationLoop run ns
    (n :: rest.1, res :: rest.2)

/-- `sim.py` line 59, `pd.DataFrame(trace).T`: the stacked runs side by side.
All runs simulate the same network over the same times, so they share one
(time, node) index; row `i` pairs the keys of that index with the `i`-th
value of every run. -/
def stackRuns (results : List SimResult) : List TraceRow :=
  match results with
  | [] => []
  | r0 :: _ =>
    (List.range r0.keys.length).map (fun i =>
      { time := (r0.keys.getD i (0, 0)).1
        node := (r0.keys.getD i (0, 0)).2
        vals := results.map (fun r => r.vals.getD i 0) })

/-- `os.remove` over an explicit filesystem (the list of existing file
names): removing an absent file raises OSError (`Except.error`). -/
def os_remove (fs : List String) (f : String) :
    Except Unit (List String) :=
  if f ∈ fs then Except.ok (fs.filter (fun g => g ≠ f)) else Except.error ()

/-- `sim.py` lines 139-142, one loop body of `_clean_tmp`: `os.remove` with
an OSError swallowed by `continue` (the filesystem is left as it was). -/
def tryRemove (s : List String) (f : String) : List String :=
  match os_remove s f with
  | Except.ok s' => s'
  | Except.error _ => s

/-- `sim.py` lines 131-142, `_clean_tmp`: try to remove the four temp files
in order; an OSError on any of them is swallowed and the remaining files are
still attempted.  Total: the cleanup never raises. -/
def clean_tmp (fs : List String) (pfx : String := "temp") : List String :=
  [".inp", ".bin", ".hyd", ".rpt"].foldl
    (fun s ext => tryRemove s (pfx ++ ext)) fs

/-- `sim.py` line 60: `trace.columns = ["time", "node"] + inj_nodes`. -/
def TraceTable.columns (t : TraceTable) : List String :=
  "time" :: "node" :: t.injNodes.map (fun n => toString n)

/-- `sim.py` lines 9-62, `contamination`.  `junctions` embeds
`wn.junction_name_list`, `run` the external EPANET simulator as a black box
from the configured trace node to its stacked quality series, `fs` the
filesystem holding the temp files.  Returns the `run_sim` invocation log, the
assembled trace table and the filesystem after `_clean_tmp`. -/
def contamination (junctions : List Nat) (run : Nat → SimResult)
    (injNodes : Option (List Nat)) (fs : List String)
    (pfx : String := "temp") :
    List Nat × TraceTable × List String :=
  let inj := match injNodes with
    | none => junctions
    | some l => l
  let loop := contaminationLoop run inj
  (loop.1,
    { injNodes := inj, rows := stackRuns loop.2 },
    clean_tmp fs pfx)

/-- `sim.py` lines 65-104, `water_demand`: one simulator run, `_clean_tmp`,
then the stacked demand series reset into (time, node, demand) rows. -/
def water_demand (simDemand : SimResult) (fs : List String)
    (pfx : String := "temp") : List DemandRow × List String :=
  ((simDemand.keys.zip simDemand.vals).map (fun p =>
      { time := p.1.1, node := p.1.2, demand := p.2 }),
    clean_tmp fs pfx)

/-- The demand of a given (time, node) key, located by key rather than by row
position.  This follows the specification's words ("the demand of that same
(time, node) in demand"), for comparison with the positional alignment the
source performs; `0` when the key is absent. -/
def demandOf (dem : List DemandRow) (tme : Int) (n : Nat) : Rat :=
  match dem.find? (fun d => d.time == tme && d.node == n) with
  | some d => d.demand
  | none => 0

/-- Per-timestep contaminated volume with the demand looked up by (time,
node) key.  This follows the claim's words, for comparison with
`perTimeVol`. -/
def keyedPerTimeVol (t : TraceTable) (dem : List DemandRow) (tme : Int)
    (j : Nat) : Rat :=
  ((t.rows.filter (fun r => r.time == tme)).map
    (fun r => r.vals.getD j 0 * (0.01 : Rat) * demandOf dem r.time r.node)).sum

/-- The volume the specification claims for a pair: the sum, over node `n`'s
trace rows with time strictly before the detection time `detT`, of the trace
percentage in column `j` times `0.01` times node `n`'s demand at that
timestep.  This follows the claim's words, for comparison with
`contaminated_volume`. -/
def claimedVolumeBeforeDetection (t : TraceTable) (dem : List DemandRow)
    (n : Nat) (j : Nat) (detT : Rat) : Rat :=
  ((t.rows.filter (fun r => r.node == n && decide ((r.time : Rat) < detT))).map
    (fun r => r.vals.getD j 0 * (0.01 : Rat) * demandOf dem r.time r.node)).sum

/-! Concrete tables used to exhibit witnesses and counterexamples. -/

/-- A small trace: two observing nodes (4 and 5), two injection columns
(nodes 7 and 9), two timesteps. -/
def exTrace : TraceTable :=
  { injNodes := [7, 9]
    rows := [⟨0, 5, [0, 2]⟩, ⟨3600, 5, [2, 0]⟩,
             ⟨0, 4, [0, 0]⟩, ⟨3600, 4, [0, 3]⟩] }

/-- Demand rows aligned row by row with `exTrace`. -/
def exDemand : List DemandRow :=
  [⟨0, 5, 10⟩, ⟨3600, 5, 20⟩, ⟨0, 4, 30⟩, ⟨3600, 4, 40⟩]

/-- A detection-time table for `exTrace` holding one detected pair and one
pair carrying the never-detected sentinel `7200 > 3600`. -/
def exDet : List DetRow :=
  [⟨5, 7, 3600⟩, ⟨4, 7, 7200⟩]

/-- Single-column trace for the volume counterexample: node 5 has
concentration 50 at time 0 and 60 at time 1. -/
def cexTrace : TraceTable :=
  { injNodes := [7], rows := [⟨0, 5, [50]⟩, ⟨1, 5, [60]⟩] }

/-- Demands for `cexTrace`: 2 at time 0, 3 at time 1. -/
def cexDemand : List DemandRow :=
  [⟨0, 5, 2⟩, ⟨1, 5, 3⟩]

/-- Detection of pair (node 5, injection 7) at time 1. -/
def cexDet : List DetRow :=
  [⟨5, 7, 1⟩]

/-- `exTrace` with its rows in reverse order, a common reordering partner
for `exDemand.reverse`. -/
def exTraceRev : TraceTable :=
  { injNodes := [7, 9], rows := exTrace.rows.reverse }

/-- `exDemand` reversed, keeping it row-aligned with `exTraceRev`. -/
def exDemandRev : List DemandRow :=
  exDemand.reverse

/-! Helper lemmas. -/

theorem contaminationLoop_log (run : Nat → SimResult) :
    ∀ l : List Nat, (contaminationLoop run l).1 = l := by
  intro l
  induction l with
  | nil => rfl
  | cons n ns ih => simp [contaminationLoop, ih]

theorem mem_of_mem_tryRemove {x : String} {s : List String} {f : String}
    (h : x ∈ tryRemove s f) : x ∈ s := by
  by_cases hf : f ∈ s
  · simp only [tryRemove, os_remove, if_pos hf] at h
    exact (List.mem_filter.mp h).1
  · simpa only [tryRemove, os_remove, if_neg hf] using h

theorem not_mem_tryRemove_self (s : List String) (f : String) :
    f ∉ tryRemove s f := by
  by_cases hf : f ∈ s
  · simp only [tryRemove, os_remove, if_pos hf]
    intro h
    have := (List.mem_filter.mp h).2
    simp at this
  · simpa only [tryRemove, os_remove, if_neg hf] using hf

theorem nodesOf_nodup (rows : List TraceRow) : (nodesOf rows).Nodup :=
  ((List.perm_insertionSort _ _).nodup_iff).mpr (List.nodup_dedup _)

theorem mem_nodesOf {rows : List TraceRow} {n : Nat} :
    n ∈ nodesOf rows ↔ n ∈ rows.map TraceRow.node := by
  unfold nodesOf
  rw [(List.perm_insertionSort _ _).mem_iff, List.mem_dedup]

theorem length_filter_flatMap {α β : Type} (f : α → List β) (p : β → Bool) :
    ∀ l : List α,
      ((l.flatMap f).filter p).length =
        (l.map (fun a => ((f a).filter p).length)).sum
  | [] => rfl
  | a :: l => by
    simp [List.flatMap_cons, List.filter_append,
      length_filter_flatMap f p l]

theorem sum_map_eq_one {α : Type} (F : α → Nat) :
    ∀ l : List α, l.Nodup → ∀ n ∈ l, F n = 1 →
      (∀ m ∈ l, m ≠ n → F m = 0) → (l.map F).sum = 1 := by
  intro l
  induction l with
  | nil => intro _ n hn; exact absurd hn (List.not_mem_nil n)
  | cons a l ih =>
    intro hnd n hn h1 h0
    rcases List.mem_cons.mp hn with rfl | hnl
    · have hz : ∀ x ∈ l.map F, x = 0 := by
        intro x hx
        obtain ⟨m, hm, rfl⟩ := List.mem_map.mp hx
        exact h0 m (List.mem_cons_of_mem _ hm)
          (fun he => (List.nodup_cons.mp hnd).1 (he ▸ hm))
      simp [h1, List.sum_eq_zero hz]
    · have ha : F a = 0 :=
        h0 a (List.mem_cons_self a l)
          (fun he => (List.nodup_cons.mp hnd).1 (he ▸ hnl))
      have := ih (List.nodup_cons.mp hnd).2 n hnl h1
        (fun m hm hne => h0 m (List.mem_cons_of_mem _ hm) hne)
      simp [ha, this]

theorem find?_of_filter {α : Type} (p q : α → Bool) :
    ∀ l : List α, (l.filter p).find? q = l.find? (fun a => p a && q a) := by
  intro l
  induction l with
  | nil => rfl
  | cons a l ih =>
    by_cases hp : p a
    · by_cases hq : q a <;>
        simp [List.filter_cons, hp, hq, ih]
    · simp [List.filter_cons, hp, ih]

theorem mem_detection_time_core {t : TraceTable} {s v : Rat} {d : DetRow} :
    d ∈ detection_time_core t s v ↔
      ∃ n ∈ nodesOf t.rows, ∃ j < t.injNodes.length, detRowOf t s v n j = d := by
  simp [detection_time_core, List.mem_flatMap, List.mem_map, List.mem_range]

theorem detection_time_core_time_unique {t : TraceTable} {s v : Rat}
    {n j : Nat} (hinj : t.injNodes.Nodup) (hj : j < t.injNodes.length) :
    ∀ d ∈ detection_time_core t s v, d.node = n →
      d.injNode = t.injNodes.getD j 0 → d.time = (detRowOf t s v n j).time := by
  intro d hd hdn hdi
  obtain ⟨n', _, j', hj', rfl⟩ := mem_detection_time_core.mp hd
  have hn' : n' = n := hdn
  subst hn'
  have : t.injNodes.getD j' 0 = t.injNodes.getD j 0 := hdi
  rw [List.getD_eq_getElem _ _ hj', List.getD_eq_getElem _ _ hj] at this
  have : j' = j := (hinj.getElem_inj_iff).mp this
  subst this
  rfl

theorem sum_map_constant {α : Type} (c : Nat) :
    ∀ l : List α, (l.map (fun _ => c)).sum = l.length * c
  | [] => by simp
  | a :: l => by simp [sum_map_constant c l, Nat.succ_mul, Nat.add_comm]

theorem nodesOf_length (rows : List TraceRow) :
    (nodesOf rows).length = ((rows.map TraceRow.node).dedup).length :=
  (List.perm_insertionSort _ _).length_eq

theorem sentinel_row (t : TraceTable) (s v : Rat) (n j : Nat)
    (hnone : ∀ r ∈ t.rows, r.node = n → r.vals.getD j 0 ≤ s) :
    detRowOf t s v n j = ⟨n, t.injNodes.getD j 0, v⟩ := by
  have hfn : first_T_greater_than t.rows s n j = none := by
    rw [first_T_greater_than, List.find?_eq_none]
    intro r hr
    simp only [Bool.and_eq_true, beq_iff_eq, decide_eq_true_eq, not_and]
    intro hrn
    exact not_lt.mpr (hnone r hr hrn)
  simp [detRowOf, hfn]

theorem sortedDistinctTimes_last_two {rows : List TraceRow} {a b : Int}
    {rest : List Int}
    (h : (sortedDistinctTimes rows).reverse = a :: b :: rest) :
    a ∈ rows.map TraceRow.time ∧ b ∈ rows.map TraceRow.time ∧ b < a ∧
    (∀ x ∈ rows.map TraceRow.time, x ≤ a) ∧
    (∀ x ∈ rows.map TraceRow.time, x ≠ a → x ≤ b) := by
  have hperm : List.Perm (sortedDistinctTimes rows)
      ((rows.map TraceRow.time).dedup) :=
    List.perm_insertionSort _ _
  have hsorted : List.Sorted (· ≤ ·) (sortedDistinctTimes rows) :=
    List.sorted_insertionSort _ _
  have hnodup : (sortedDistinctTimes rows).Nodup :=
    hperm.nodup_iff.mpr (List.nodup_dedup _)
  have hmem : ∀ x, x ∈ sortedDistinctTimes rows ↔ x ∈ rows.map TraceRow.time :=
    fun x => by rw [hperm.mem_iff, List.mem_dedup]
  have hl : sortedDistinctTimes rows = rest.reverse ++ [b, a] := by
    have := congrArg List.reverse h
    simpa using this
  rw [hl] at hsorted hnodup
  have hpw : List.Pairwise (· ≤ ·) (rest.reverse ++ [b, a]) := hsorted
  rw [List.pairwise_append] at hpw
  obtain ⟨hs1, hs2, hs12⟩ := hpw
  have hba : b ≤ a := (List.pairwise_cons.mp hs2).1 a (by simp)
  have hbnea : b ≠ a := by
    have := (List.nodup_append.mp hnodup).2.1
    simpa using (List.nodup_cons.mp this).1
  refine ⟨(hmem a).mp (by rw [hl]; simp), (hmem b).mp (by rw [hl]; simp),
    lt_of_le_of_ne hba hbnea, ?_, ?_⟩
  · intro x hx
    have hxl := (hmem x).mpr hx
    rw [hl] at hxl
    rcases List.mem_append.mp hxl with hx1 | hx2
    · exact hs12 x hx1 a (by simp)
    · rcases List.mem_cons.mp hx2 with rfl | hx3
      · exact hba
      · simp at hx3
        subst hx3
        exact le_refl _
  · intro x hx hxne
    have hxl := (hmem x).mpr hx
    rw [hl] at hxl
    rcases List.mem_append.mp hxl with hx1 | hx2
    · exact hs12 x hx1 b (by simp)
    · rcases List.mem_cons.mp hx2 with rfl | hx3
      · exact le_refl _
      · simp at hx3
        exact absurd hx3 hxne

theorem ratTrunc_intCast (n : Int) : ratTrunc ((n : Int) : Rat) = n := by
  unfold ratTrunc
  by_cases h : ((n : Int) : Rat) < 0
  · rw [if_pos h, ← Int.cast_neg, Rat.floor]
    simp
  · rw [if_neg h, Rat.floor]
    simp

theorem optionGetD_mul (o : Option Rat) (c c' : Rat) :
    (Option.map (fun v => v * c * c') o).getD 0 = o.getD 0 * c * c' := by
  cases o <;> simp

theorem demandOf_self {dem : List DemandRow}
    (hkeys : (dem.map (fun d => (d.time, d.node))).Nodup) :
    ∀ d ∈ dem, demandOf dem d.time d.node = d.demand := by
  induction dem with
  | nil => intro d hd; exact absurd hd (List.not_mem_nil d)
  | cons d0 rest ih =>
    intro d hd
    rcases List.mem_cons.mp hd with rfl | hdr
    · simp [demandOf, List.find?_cons_of_pos]
    · have h0 : (d0.time, d0.node) ∉ rest.map (fun d => (d.time, d.node)) := by
        simpa using (List.nodup_cons.mp hkeys).1
      have hne : ¬(d0.time == d.time && d0.node == d.node) = true := by
        simp only [Bool.and_eq_true, beq_iff_eq, not_and]
        intro ht hn
        exact h0 (by rw [ht, hn]; exact List.mem_map.mpr ⟨d, hdr, rfl⟩)
      have hrec := ih (List.nodup_cons.mp hkeys).2 d hdr
      unfold demandOf
      rw [show List.find? (fun d1 => d1.time == d.time && d1.node == d.node)
            (d0 :: rest) =
          List.find? (fun d1 => d1.time == d.time && d1.node == d.node) rest
        from List.find?_cons_of_neg _ hne]
      unfold demandOf at hrec
      exact hrec

theorem perTimeVol_keyed_aux (dem0 : List DemandRow) (tme : Int) (j : Nat) :
    ∀ (rs : List TraceRow) (ds : List DemandRow),
      List.Forall₂ (fun (r : TraceRow) (d : DemandRow) =>
        r.time = d.time ∧ r.node = d.node) rs ds →
      (∀ p ∈ rs.zip ds, demandOf dem0 p.1.time p.1.node = p.2.demand) →
      ((((rs.zip ds).map (fun p =>
          (p.1.time, p.1.vals.map (fun v => v * (0.01 : Rat) * p.2.demand)))).filter
            (fun p => p.1 == tme)).map (fun p => p.2.getD j 0)).sum =
        ((rs.filter (fun r => r.time == tme)).map
          (fun r => r.vals.getD j 0 * (0.01 : Rat) *
            demandOf dem0 r.time r.node)).sum := by
  intro rs ds h
  induction h with
  | nil => intro _; rfl
  | cons hrd htail ih =>
    rename_i r d rs' ds'
    intro hdm
    have hd : demandOf dem0 r.time r.node = d.demand :=
      hdm (r, d) (by simp [List.zip_cons_cons])
    have ihs := ih (fun p hp => hdm p (by simp [List.zip_cons_cons, hp]))
    simp only [List.getD_eq_getElem?_getD] at ihs
    by_cases ht : (r.time == tme) = true
    · simp [List.zip_cons_cons, List.filter_cons, ht, ihs, hd, optionGetD_mul]
    · simp [List.zip_cons_cons, List.filter_cons, ht, ihs]

theorem listMax_eq_none {l : List Int} : listMax l = none ↔ l = [] := by
  cases l <;> simp [listMax]

theorem listMax_mem : ∀ {l : List Int} {m : Int}, listMax l = some m → m ∈ l := by
  intro l
  induction l with
  | nil => intro m h; simp [listMax] at h
  | cons x xs ih =>
    intro m h
    simp only [listMax] at h
    rcases hx : listMax xs with _ | m'
    · rw [hx] at h
      simp only [Option.some_inj] at h
      subst h
      exact List.mem_cons_self _ _
    · rw [hx] at h
      simp only [Option.some_inj] at h
      subst h
      rcases max_choice x m' with he | he <;> rw [he]
      · exact List.mem_cons_self _ _
      · exact List.mem_cons_of_mem _ (ih hx)

theorem listMax_ge : ∀ {l : List Int} {m : Int}, listMax l = some m →
    ∀ x ∈ l, x ≤ m := by
  intro l
  induction l with
  | nil => intro m _ x hx; exact absurd hx (List.not_mem_nil x)
  | cons x0 xs ih =>
    intro m h x hx
    simp only [listMax] at h
    rcases hx0 : listMax xs with _ | m'
    · rw [hx0] at h
      simp only [Option.some_inj] at h
      subst h
      rcases List.mem_cons.mp hx with rfl | hxs
      · exact le_refl _
      · rw [listMax_eq_none.mp hx0] at hxs
        exact absurd hxs (List.not_mem_nil x)
    · rw [hx0] at h
      simp only [Option.some_inj] at h
      subst h
      rcases List.mem_cons.mp hx with rfl | hxs
      · exact le_max_left _ _
      · exact le_trans (ih hx0 x hxs) (le_max_right _ _)

theorem optTraverse_eq_map {α β : Type} (f : α → Option β) (g : α → β) :
    ∀ l : List α, (∀ a ∈ l, f a = some (g a)) →
      optTraverse f l = some (l.map g) := by
  intro l
  induction l with
  | nil => intro _; rfl
  | cons a l ih =>
    intro h
    have ha := h a (List.mem_cons_self a l)
    have hl := ih (fun x hx => h x (List.mem_cons_of_mem _ hx))
    simp [optTraverse, ha, hl]

theorem clean_tmp_unfold (fs : List String) (pfx : String) :
    clean_tmp fs pfx =
      tryRemove (tryRemove (tryRemove (tryRemove fs (pfx ++ ".inp"))
        (pfx ++ ".bin")) (pfx ++ ".hyd")) (pfx ++ ".rpt") := rfl

/-! Theorems settling the claims. -/

/-- C8: `contaminated_volume` mutates its `det_time` argument in place — the
caller's `time` column comes back cast to int — while `trace` and `demand`
are left unchanged. -/
theorem contaminated_volume_frame (s : AnalyzerState) :
    ((contaminated_volume s).1).trace = s.trace ∧
    ((contaminated_volume s).1).demand = s.demand ∧
    ((contaminated_volume s).1).det_time =
      s.det_time.map (fun r =>
        { r with time := ((ratTrunc r.time : Int) : Rat) }) :=
  ⟨rfl, rfl, rfl⟩

/-- C2 (code-bug evidence): on `cexTrace`/`cexDemand`/`cexDet` the code
returns for pair (5, 7) the volume `60 * 0.01 * 3 = 9/5` consumed at the
detection timestep itself, while the volume consumed strictly before the
detection time — what the docstring and the claim describe — is
`50 * 0.01 * 2 = 1`; the two differ. -/
theorem contaminated_volume_not_prior_detection :
    (contaminated_volume ⟨cexTrace, cexDemand, cexDet⟩).2 =
      some [{ node := 5, injNode := 7, volume := (9 : Rat) / 5 }] ∧
    claimedVolumeBeforeDetection cexTrace cexDemand 5 0 1 = 1 ∧
    ((9 : Rat) / 5 ≠ (1 : Rat)) := by
  refine ⟨?_, ?_, by norm_num⟩
  · have h1 : ratTrunc (1 : Rat) = 1 := rfl
    simp [contaminated_volume, cexTrace, cexDemand, cexDet, optTraverse,
      volLookup, perTimeVol, scenarioVols, clampTime, listMax, demandOf, h1]
    norm_num
  · simp [claimedVolumeBeforeDetection, cexTrace, cexDemand, demandOf]
    norm_num

/-- C5: `contamination` invokes the simulator exactly once per injection node
in the order given (once per junction when `inj_nodes` is `None`), and the
assembled table's columns are `time`, `node`, then one column per injection
node in that order. -/
theorem contamination_runs_and_columns (junctions : List Nat)
    (run : Nat → SimResult) (injNodes : Option (List Nat))
    (fs : List String) (pfx : String) :
    (contamination junctions run injNodes fs pfx).1 =
      injNodes.getD junctions ∧
    (contamination junctions run injNodes fs pfx).1.length =
      (injNodes.getD junctions).length ∧
    (contamination junctions run injNodes fs pfx).2.1.injNodes =
      injNodes.getD junctions ∧
    TraceTable.columns (contamination junctions run injNodes fs pfx).2.1 =
      "time" :: "node" ::
        (injNodes.getD junctions).map (fun n => toString n) := by
  cases injNodes <;>
    simp [contamination, TraceTable.columns, contaminationLoop_log]

/-- C6: after `contamination` and after `water_demand` the four temp files
`pfx + ".inp"/".bin"/".hyd"/".rpt"` are gone from the filesystem, whatever
subset of them existed: the cleanup is total (an OSError on one file is
swallowed and the remaining files are still attempted). -/
theorem clean_tmp_removes_temp_files (fs : List String) (pfx : String)
    (junctions : List Nat) (run : Nat → SimResult)
    (injNodes : Option (List Nat)) (sd : SimResult) :
    ((pfx ++ ".inp") ∉ clean_tmp fs pfx ∧
     (pfx ++ ".bin") ∉ clean_tmp fs pfx ∧
     (pfx ++ ".hyd") ∉ clean_tmp fs pfx ∧
     (pfx ++ ".rpt") ∉ clean_tmp fs pfx) ∧
    (contamination junctions run injNodes fs pfx).2.2 = clean_tmp fs pfx ∧
    (water_demand sd fs pfx).2 = clean_tmp fs pfx := by
  refine ⟨⟨?_, ?_, ?_, ?_⟩, by cases injNodes <;> rfl, rfl⟩ <;>
    rw [clean_tmp_unfold]
  · intro h
    exact not_mem_tryRemove_self _ _
      (mem_of_mem_tryRemove (mem_of_mem_tryRemove (mem_of_mem_tryRemove h)))
  · intro h
    exact not_mem_tryRemove_self _ _
      (mem_of_mem_tryRemove (mem_of_mem_tryRemove h))
  · intro h
    exact not_mem_tryRemove_self _ _ (mem_of_mem_tryRemove h)
  · intro h
    exact not_mem_tryRemove_self _ _ h

/-- C10: with the default `non_detection_value = None`, `detection_time` is
defined exactly when the trace holds at least two distinct times (otherwise
the sentinel computation raises IndexError before any result is produced),
while an explicit `non_detection_value` imposes no such requirement. -/
theorem detection_time_default_requires_two_times (t : TraceTable)
    (s : Rat) :
    (∀ v : Rat, (detection_time t s (some v)).isSome) ∧
    ((detection_time t s none).isSome ↔
      2 ≤ ((t.rows.map TraceRow.time).dedup).length) := by
  constructor
  · intro v; rfl
  · have hlen : (sortedDistinctTimes t.rows).length =
        ((t.rows.map TraceRow.time).dedup).length :=
      (List.perm_insertionSort _ _).length_eq
    have hrev : (sortedDistinctTimes t.rows).reverse.length =
        ((t.rows.map TraceRow.time).dedup).length := by
      simpa using hlen
    rcases h : (sortedDistinctTimes t.rows).reverse with _ | ⟨a, _ | ⟨b, r⟩⟩ <;>
      rw [h] at hrev
    · have hd : defaultSentinel t.rows = none := by
        unfold defaultSentinel; rw [h]
      simp [detection_time, hd, ← hrev]
    · have hd : defaultSentinel t.rows = none := by
        unfold defaultSentinel; rw [h]
      simp [detection_time, hd, ← hrev]
    · have hd : defaultSentinel t.rows =
          some ((a + (a - b) : Int) : Rat) := by
        unfold defaultSentinel; rw [h]
      simp only [detection_time, hd, Option.isSome_some, true_iff, ← hrev,
        List.length_cons]
      omega

/-- C1: for every observing node `n` of the trace and injection column `j`,
if some row of node `n` exceeds `sensibility` in column `j` (strictly — an
exact tie does not count), the detection-time table's unique row for the pair
carries the `time` of the first such row of node `n`'s group, in trace row
order. -/
theorem detection_time_first_exceedance (t : TraceTable) (s ndv : Rat)
    (n j : Nat) (hinj : t.injNodes.Nodup)
    (hn : n ∈ t.rows.map TraceRow.node) (hj : j < t.injNodes.length)
    (hex : ∃ r ∈ t.rows, r.node = n ∧ s < r.vals.getD j 0) :
    ∃ r0 : TraceRow,
      (t.rows.filter (fun r => r.node == n)).find?
          (fun r => decide (s < r.vals.getD j 0)) = some r0 ∧
      ({ node := n, injNode := t.injNodes.getD j 0, time := (r0.time : Rat) } :
        DetRow) ∈ detection_time_core t s ndv ∧
      ∀ d ∈ detection_time_core t s ndv, d.node = n →
        d.injNode = t.injNodes.getD j 0 → d.time = (r0.time : Rat) := by
  have hfs : (first_T_greater_than t.rows s n j).isSome := by
    rw [first_T_greater_than, List.find?_isSome]
    obtain ⟨r, hr, hrn, hrv⟩ := hex
    refine ⟨r, hr, ?_⟩
    simp only [hrn, beq_self_eq_true, Bool.true_and, decide_eq_true_eq]
    exact hrv
  obtain ⟨r0, hr0⟩ := Option.isSome_iff_exists.mp hfs
  refine ⟨r0, ?_, ?_, ?_⟩
  · rw [find?_of_filter]
    simpa [first_T_greater_than] using hr0
  · have hmem : detRowOf t s ndv n j ∈ detection_time_core t s ndv :=
      mem_detection_time_core.mpr ⟨n, mem_nodesOf.mpr hn, j, hj, rfl⟩
    have heq : detRowOf t s ndv n j =
        ⟨n, t.injNodes.getD j 0, (r0.time : Rat)⟩ := by
      simp [detRowOf, hr0]
    rwa [heq] at hmem
  · intro d hd h1 h2
    rw [detection_time_core_time_unique hinj hj d hd h1 h2]
    simp [detRowOf, hr0]

/-- Witness for `detection_time_first_exceedance`: in `exTrace`, node 5
first exceeds sensibility 1 in the column of injection node 7 at time
3600. -/
theorem detection_time_first_exceedance_witness :
    (exTrace.injNodes.Nodup ∧ 5 ∈ exTrace.rows.map TraceRow.node ∧
      0 < exTrace.injNodes.length ∧
      ∃ r ∈ exTrace.rows, r.node = 5 ∧ (1 : Rat) < r.vals.getD 0 0) ∧
    (∃ r0 : TraceRow,
      (exTrace.rows.filter (fun r => r.node == 5)).find?
          (fun r => decide ((1 : Rat) < r.vals.getD 0 0)) = some r0 ∧
      ({ node := 5, injNode := exTrace.injNodes.getD 0 0,
          time := (r0.time : Rat) } : DetRow) ∈
        detection_time_core exTrace 1 99 ∧
      ∀ d ∈ detection_time_core exTrace 1 99, d.node = 5 →
        d.injNode = exTrace.injNodes.getD 0 0 → d.time = (r0.time : Rat)) :=
  ⟨⟨by decide, by decide, by decide, by decide⟩,
    detection_time_first_exceedance exTrace 1 99 5 0 (by decide) (by decide)
      (by decide) (by decide)⟩

/-- C3: a pair whose concentration never strictly exceeds `sensibility` gets
the sentinel `non_detection_value`; and with `non_detection_value = None`,
whenever at least two distinct times exist the sentinel used is
`times[-1] + (times[-1] - times[-2])` over the sorted distinct trace times —
`t1` the greatest time and `t2` the greatest remaining time. -/
theorem detection_time_sentinel (t : TraceTable) (s v : Rat) (n j : Nat)
    (hinj : t.injNodes.Nodup) (hn : n ∈ t.rows.map TraceRow.node)
    (hj : j < t.injNodes.length)
    (hnone : ∀ r ∈ t.rows, r.node = n → r.vals.getD j 0 ≤ s) :
    (({ node := n, injNode := t.injNodes.getD j 0, time := v } : DetRow) ∈
        detection_time_core t s v ∧
      ∀ d ∈ detection_time_core t s v, d.node = n →
        d.injNode = t.injNodes.getD j 0 → d.time = v) ∧
    (2 ≤ ((t.rows.map TraceRow.time).dedup).length →
      ∃ t1 t2 : Int, t1 ∈ t.rows.map TraceRow.time ∧
        t2 ∈ t.rows.map TraceRow.time ∧ t2 < t1 ∧
        (∀ x ∈ t.rows.map TraceRow.time, x ≤ t1) ∧
        (∀ x ∈ t.rows.map TraceRow.time, x ≠ t1 → x ≤ t2) ∧
        detection_time t s none =
          some (detection_time_core t s ((t1 + (t1 - t2) : Int) : Rat)) ∧
        ({ node := n, injNode := t.injNodes.getD j 0,
            time := ((t1 + (t1 - t2) : Int) : Rat) } : DetRow) ∈
          detection_time_core t s ((t1 + (t1 - t2) : Int) : Rat)) := by
  constructor
  · constructor
    · have hmem : detRowOf t s v n j ∈ detection_time_core t s v :=
        mem_detection_time_core.mpr ⟨n, mem_nodesOf.mpr hn, j, hj, rfl⟩
      rwa [sentinel_row t s v n j hnone] at hmem
    · intro d hd h1 h2
      rw [detection_time_core_time_unique hinj hj d hd h1 h2,
        sentinel_row t s v n j hnone]
  · intro htwo
    have hlen : (sortedDistinctTimes t.rows).reverse.length =
        ((t.rows.map TraceRow.time).dedup).length := by
      rw [List.length_reverse]
      exact (List.perm_insertionSort _ _).length_eq
    rcases h : (sortedDistinctTimes t.rows).reverse with _ | ⟨a, _ | ⟨b, rest⟩⟩ <;>
      rw [h] at hlen
    · exfalso
      rw [← hlen] at htwo
      norm_num at htwo
    · exfalso
      rw [← hlen] at htwo
      norm_num at htwo
    · obtain ⟨ha, hb, hba, hmax, hsecond⟩ := sortedDistinctTimes_last_two h
      refine ⟨a, b, ha, hb, hba, hmax, hsecond, ?_, ?_⟩
      · have hd : defaultSentinel t.rows =
            some ((a + (a - b) : Int) : Rat) := by
          unfold defaultSentinel
          rw [h]
        simp [detection_time, hd]
      · have hmem : detRowOf t s ((a + (a - b) : Int) : Rat) n j ∈
            detection_time_core t s ((a + (a - b) : Int) : Rat) :=
          mem_detection_time_core.mpr ⟨n, mem_nodesOf.mpr hn, j, hj, rfl⟩
        rwa [sentinel_row t s _ n j hnone] at hmem

/-- Witness for `detection_time_sentinel`: in `exTrace`, node 4 never
exceeds sensibility 1 in the column of injection node 7, and `exTrace` has
the two distinct times 0 and 3600. -/
theorem detection_time_sentinel_witness :
    (exTrace.injNodes.Nodup ∧ 4 ∈ exTrace.rows.map TraceRow.node ∧
      0 < exTrace.injNodes.length ∧
      ∀ r ∈ exTrace.rows, r.node = 4 → r.vals.getD 0 0 ≤ (1 : Rat)) ∧
    ((({ node := 4, injNode := exTrace.injNodes.getD 0 0, time := 99 } :
          DetRow) ∈ detection_time_core exTrace 1 99 ∧
      ∀ d ∈ detection_time_core exTrace 1 99, d.node = 4 →
        d.injNode = exTrace.injNodes.getD 0 0 → d.time = 99) ∧
    (2 ≤ ((exTrace.rows.map TraceRow.time).dedup).length →
      ∃ t1 t2 : Int, t1 ∈ exTrace.rows.map TraceRow.time ∧
        t2 ∈ exTrace.rows.map TraceRow.time ∧ t2 < t1 ∧
        (∀ x ∈ exTrace.rows.map TraceRow.time, x ≤ t1) ∧
        (∀ x ∈ exTrace.rows.map TraceRow.time, x ≠ t1 → x ≤ t2) ∧
        detection_time exTrace 1 none =
          some (detection_time_core exTrace 1 ((t1 + (t1 - t2) : Int) : Rat)) ∧
        ({ node := 4, injNode := exTrace.injNodes.getD 0 0,
            time := ((t1 + (t1 - t2) : Int) : Rat) } : DetRow) ∈
          detection_time_core exTrace 1 ((t1 + (t1 - t2) : Int) : Rat))) :=
  ⟨⟨by decide, by decide, by decide, by decide⟩,
    detection_time_sentinel exTrace 1 99 4 0 (by decide) (by decide)
      (by decide) (by decide)⟩

/-- C7: the detection-time table has columns `node`, `inj_node`, `time` and
contains exactly one row for every pair (distinct trace node, injection
column) — `#distinct nodes × #injection columns` rows in total, no pair
dropped even when never detected. -/
theorem detection_time_pairs (t : TraceTable) (s v : Rat)
    (hinj : t.injNodes.Nodup) :
    detection_time_columns = ["node", "inj_node", "time"] ∧
    (detection_time_core t s v).length =
      ((t.rows.map TraceRow.node).dedup).length * t.injNodes.length ∧
    ∀ n ∈ t.rows.map TraceRow.node, ∀ j, j < t.injNodes.length →
      ((detection_time_core t s v).filter
        (fun d => d.node == n && d.injNode == t.injNodes.getD j 0)).length = 1 := by
  refine ⟨rfl, ?_, ?_⟩
  · unfold detection_time_core
    rw [List.length_flatMap]
    simp only [Function.comp_def, List.length_map, List.length_range]
    rw [sum_map_constant, nodesOf_length]
  · intro n hn j hj
    unfold detection_time_core
    rw [length_filter_flatMap]
    apply sum_map_eq_one _ _ (nodesOf_nodup t.rows) n (mem_nodesOf.mpr hn)
    · rw [List.filter_map, List.length_map, ← List.countP_eq_length_filter]
      have hcong : ∀ j' ∈ List.range t.injNodes.length,
          (((fun d => d.node == n && d.injNode == t.injNodes.getD j 0) ∘
            (detRowOf t s v n)) j' = true) ↔ ((j' == j) = true) := by
        intro j' hj'
        have hj'lt := List.mem_range.mp hj'
        simp only [Function.comp, detRowOf, beq_self_eq_true, Bool.true_and,
          beq_iff_eq]
        rw [List.getD_eq_getElem _ _ hj'lt, List.getD_eq_getElem _ _ hj]
        exact hinj.getElem_inj_iff
      rw [List.countP_congr hcong, ← List.count_eq_countP]
      exact List.count_eq_one_of_mem (List.nodup_range _) (List.mem_range.mpr hj)
    · intro m hm hmn
      rw [List.filter_map, List.length_map, ← List.countP_eq_length_filter]
      rw [List.countP_eq_zero]
      intro j' hj'
      simp [Function.comp, detRowOf, hmn]

/-- Witness for `detection_time_pairs` at `exTrace` (two distinct nodes, two
injection columns). -/
theorem detection_time_pairs_witness :
    exTrace.injNodes.Nodup ∧
    (detection_time_columns = ["node", "inj_node", "time"] ∧
      (detection_time_core exTrace 1 99).length =
        ((exTrace.rows.map TraceRow.node).dedup).length *
          exTrace.injNodes.length ∧
      ∀ n ∈ exTrace.rows.map TraceRow.node, ∀ j, j < exTrace.injNodes.length →
        ((detection_time_core exTrace 1 99).filter
          (fun d => d.node == n &&
            d.injNode == exTrace.injNodes.getD j 0)).length = 1) :=
  ⟨by decide, detection_time_pairs exTrace 1 99 (by decide)⟩

/-- C4: when trace and demand are row-aligned on their shared (time, node)
axis, each trace percentage is multiplied by the demand of that same
(time, node) key — the positional product equals the key-lookup product —
and the per-timestep contaminated volume is invariant under any common
reordering of the two tables' rows. -/
theorem contaminated_volume_alignment (t t' : TraceTable)
    (dem dem' : List DemandRow) (tme : Int) (j : Nat)
    (halign : List.Forall₂ (fun (r : TraceRow) (d : DemandRow) =>
      r.time = d.time ∧ r.node = d.node) t.rows dem)
    (hkeys : (dem.map (fun d => (d.time, d.node))).Nodup)
    (hperm : List.Perm (t'.rows.zip dem') (t.rows.zip dem)) :
    perTimeVol t dem tme j = keyedPerTimeVol t dem tme j ∧
    perTimeVol t' dem' tme j = perTimeVol t dem tme j := by
  constructor
  · unfold perTimeVol keyedPerTimeVol scenarioVols
    apply perTimeVol_keyed_aux dem tme j t.rows dem halign
    intro p hp
    have hmem := (List.of_mem_zip hp).2
    have hdm := demandOf_self hkeys p.2 hmem
    have hkey := (List.forall₂_iff_zip.mp halign).2 hp
    rw [hkey.1, hkey.2]
    exact hdm
  · unfold perTimeVol scenarioVols
    exact ((hperm.map _).filter _).map _ |>.sum_eq

/-- Witness for `contaminated_volume_alignment`: `exTrace`/`exDemand` are
row-aligned with distinct keys, and reversing both tables is a common
reordering. -/
theorem contaminated_volume_alignment_witness :
    (List.Forall₂ (fun (r : TraceRow) (d : DemandRow) =>
        r.time = d.time ∧ r.node = d.node) exTrace.rows exDemand ∧
      ((exDemand.map (fun d => (d.time, d.node))).Nodup) ∧
      List.Perm (exTraceRev.rows.zip exDemandRev)
        (exTrace.rows.zip exDemand)) ∧
    (perTimeVol exTrace exDemand 0 0 = keyedPerTimeVol exTrace exDemand 0 0 ∧
      perTimeVol exTraceRev exDemandRev 0 0 = perTimeVol exTrace exDemand 0 0) :=
  ⟨⟨by simp [exTrace, exDemand, List.forall₂_cons], by decide, by decide⟩,
    contaminated_volume_alignment exTrace exTraceRev exDemand exDemandRev 0 0
      (by simp [exTrace, exDemand, List.forall₂_cons]) (by decide) (by decide)⟩

/-- C9: when every detection time is either a timestep of the trace or lies
strictly beyond the last trace time, the multi-index lookup in
`contaminated_volume` succeeds — times beyond the horizon (in particular the
never-detected sentinel) are clamped to the last trace time, and those pairs
receive the volume of the final simulation timestep instead of raising a
missing-key error. -/
theorem contaminated_volume_clamp (s : AnalyzerState) (m : Int)
    (hm : listMax (s.trace.rows.map (fun r => r.time)) = some m)
    (hinj : ∀ r ∈ s.det_time, r.injNode ∈ s.trace.injNodes)
    (htime : ∀ r ∈ s.det_time,
      (∃ row ∈ s.trace.rows, row.time = ratTrunc r.time) ∨
        m < ratTrunc r.time) :
    ∃ out : List VolRow, (contaminated_volume s).2 = some out ∧
      out.length = s.det_time.length ∧
      ∀ r ∈ s.det_time, m < ratTrunc r.time →
        ({ node := r.node, injNode := r.injNode,
            volume := perTimeVol s.trace s.demand m
              (s.trace.injNodes.indexOf r.injNode) } : VolRow) ∈ out := by
  have hsome : ∀ r ∈ s.det_time,
      (volLookup s.trace s.demand (clampTime (some m) (ratTrunc r.time))
          r.injNode).map
        (fun v => ({ node := r.node, injNode := r.injNode, volume := v } :
          VolRow)) =
      some ({ node := r.node, injNode := r.injNode,
              volume := perTimeVol s.trace s.demand
                (clampTime (some m) (ratTrunc r.time))
                (s.trace.injNodes.indexOf r.injNode) } : VolRow) := by
    intro r hr
    have hc : (s.trace.rows.any
        (fun row => row.time == clampTime (some m) (ratTrunc r.time))) = true := by
      rcases htime r hr with ⟨row, hrow, heq⟩ | hgt
      · have hle : ratTrunc r.time ≤ m :=
          listMax_ge hm _ (List.mem_map.mpr ⟨row, hrow, heq⟩)
        have hcl : clampTime (some m) (ratTrunc r.time) = ratTrunc r.time := by
          simp [clampTime, not_lt.mpr hle]
        rw [hcl, List.any_eq_true]
        exact ⟨row, hrow, by simp [heq]⟩
      · have hcl : clampTime (some m) (ratTrunc r.time) = m := by
          simp [clampTime, hgt]
        rw [hcl, List.any_eq_true]
        obtain ⟨row, hrow, heq⟩ := List.mem_map.mp (listMax_mem hm)
        exact ⟨row, hrow, by simp [heq]⟩
    have hlk : volLookup s.trace s.demand
        (clampTime (some m) (ratTrunc r.time)) r.injNode =
        some (perTimeVol s.trace s.demand
          (clampTime (some m) (ratTrunc r.time))
          (s.trace.injNodes.indexOf r.injNode)) := by
      unfold volLookup
      rw [if_pos ⟨hc, hinj r hr⟩]
    rw [hlk]
    rfl
  have htrav := optTraverse_eq_map _
    (fun r =>
      ({ node := r.node, injNode := r.injNode,
         volume := perTimeVol s.trace s.demand
           (clampTime (some m) (ratTrunc r.time))
           (s.trace.injNodes.indexOf r.injNode) } : VolRow))
    s.det_time hsome
  have hcv : (contaminated_volume s).2 = some (s.det_time.map
      (fun r =>
        ({ node := r.node, injNode := r.injNode,
           volume := perTimeVol s.trace s.demand
             (clampTime (some m) (ratTrunc r.time))
             (s.trace.injNodes.indexOf r.injNode) } : VolRow))) := by
    have h2 : (contaminated_volume s).2 = optTraverse
        (fun r => (volLookup s.trace s.demand
          (clampTime (listMax (s.trace.rows.map (fun x => x.time)))
            (ratTrunc r.time)) r.injNode).map
          (fun v => ({ node := r.node, injNode := r.injNode, volume := v } :
            VolRow))) s.det_time := rfl
    rw [h2, hm]
    exact htrav
  refine ⟨_, hcv, by simp, ?_⟩
  · intro r hr hgt
    have hcl : clampTime (some m) (ratTrunc r.time) = m := by
      simp [clampTime, hgt]
    refine List.mem_map.mpr ⟨r, hr, ?_⟩
    rw [hcl]

/-- Witness for `contaminated_volume_clamp`: on `exTrace` (last time 3600),
`exDet` holds a detected pair at time 3600 and a never-detected pair with
sentinel 7200, which is clamped to 3600. -/
theorem contaminated_volume_clamp_witness :
    (listMax (exTrace.rows.map (fun r => r.time)) = some 3600 ∧
      (∀ r ∈ exDet, r.injNode ∈ exTrace.injNodes) ∧
      ∀ r ∈ exDet,
        (∃ row ∈ exTrace.rows, row.time = ratTrunc r.time) ∨
          (3600 : Int) < ratTrunc r.time) ∧
    (∃ out : List VolRow,
      (contaminated_volume ⟨exTrace, exDemand, exDet⟩).2 = some out ∧
      out.length = exDet.length ∧
      ∀ r ∈ exDet, (3600 : Int) < ratTrunc r.time →
        ({ node := r.node, injNode := r.injNode,
            volume := perTimeVol exTrace exDemand 3600
              (exTrace.injNodes.indexOf r.injNode) } : VolRow) ∈ out) :=
  ⟨⟨by decide, by decide, by decide⟩,
    contaminated_volume_clamp ⟨exTrace, exDemand, exDet⟩ 3600 (by decide)
      (by decide) (by decide)⟩

end Waco
